import Mathlib

/-!
# Verification of the hybrid resume-extraction pipeline

Shallow embedding of the Resume_parser repository's core logic:

* `app/services/rule_based_parser.py` — section segmenter, per-field heuristic
  extractors, rule-based confidence scorer;
* `app/services/llm_parser.py` — generative-path confidence scorer and the
  success path of the generative adapter;
* `app/api/routes.py` (`parse_resume_sync`) — empty-text refusal, escalation
  guard, merge step;
* `app/config.py` — `RULE_CONFIDENCE_THRESHOLD`.

Python strings are embedded as `List Char` (`PyStr`).  Python floats are
embedded as `ℚ`; every numeric literal appearing in the scoring code
(0.05 … 0.25, 2.5 … 100, 0.85) is exactly representable, and the float
operations performed on them (comparison, the additions and the division by
100 on these values) agree with exact rational arithmetic, which was checked
against the decimal values involved.  Python's `re` module is embedded by a
small backtracking engine (`RE`, `reMatch`) faithful to leftmost /
alternation-order / greedy semantics for the pattern features the source
uses; each compiled pattern of the source is transcribed as an `RE` value.
Python functions that can raise, and the `try`/`except` blocks of the routes
module, are embedded with `Except`.
-/

namespace ResumeParser

/-- Embedded Python string: a list of characters. -/
abbrev PyStr := List Char

/-- Coerce a Lean string literal to an embedded Python string. -/
def pys (s : String) : PyStr := s.data

/-- Python whitespace for `str.strip()` (ASCII range, as exercised here). -/
def pyIsSpace (c : Char) : Bool :=
  c = ' ' || c = '\t' || c = '\n' || c = '\r' || c = '\x0b' || c = '\x0c'

/-- `str.lower()` (ASCII). -/
def pyLower (s : PyStr) : PyStr := s.map Char.toLower

/-- `str.strip()`: drop leading whitespace, then trailing whitespace. -/
def pyStrip (s : PyStr) : PyStr :=
  ((s.dropWhile pyIsSpace).reverse.dropWhile pyIsSpace).reverse

/-- `sep.join(parts)` for `str.join`. -/
def pyJoin (sep : PyStr) : List PyStr → PyStr
  | [] => []
  | [p] => p
  | p :: ps => p ++ sep ++ pyJoin sep ps

/-- Split at every character satisfying `p` (used both for `str.split(c)`
with a one-character separator and for `re.split` on a character class,
which agree for single characters). -/
def splitOnPred (p : Char → Bool) : PyStr → List PyStr
  | [] => [[]]
  | c :: rest =>
    if p c then [] :: splitOnPred p rest
    else
      match splitOnPred p rest with
      | [] => [[c]]
      | h :: t => (c :: h) :: t

/-- `str.split(sep)` for a one-character separator. -/
def pySplit1 (sep : Char) : PyStr → List PyStr := splitOnPred (· = sep)

/-- `str.split(sep)` for a two-character separator (`"\n\n"`, `"in"`):
non-overlapping leftmost occurrences split the string. -/
def pySplit2 (c1 c2 : Char) : PyStr → List PyStr
  | [] => [[]]
  | [c] => [[c]]
  | a :: b :: rest =>
    if a = c1 ∧ b = c2 then [] :: pySplit2 c1 c2 rest
    else
      match pySplit2 c1 c2 (b :: rest) with
      | [] => [[a]]
      | h :: t => (a :: h) :: t

/-- Python's substring operator `sub in s`. -/
def pyIn (sub : PyStr) : PyStr → Bool
  | [] => sub.isEmpty
  | c :: rest => sub.isPrefixOf (c :: rest) || pyIn sub rest

/-- `tuple.startswith` over a list of prefixes (`str.startswith((p1,...))`). -/
def startsWithAny (s : PyStr) (ps : List PyStr) : Bool :=
  ps.any (fun p => p.isPrefixOf s)

/-- Truthiness of a Python `Optional[str]`: `None` and `""` are falsy. -/
def pyTruthy : Option PyStr → Bool
  | none => false
  | some s => !s.isEmpty

/-- Python `dict` assignment `d[k] = v` on an insertion-ordered
association list: replace in place if present, else append. -/
def dictSet (k v : PyStr) : List (PyStr × PyStr) → List (PyStr × PyStr)
  | [] => [(k, v)]
  | (k', v') :: rest => if k' = k then (k, v) :: rest else (k', v') :: dictSet k v rest

/-- Python `dict.get(k)`. -/
def dictGet (k : PyStr) : List (PyStr × PyStr) → Option PyStr
  | [] => none
  | (k', v') :: rest => if k' = k then some v' else dictGet k rest

/-- Python `dict.get(k, default)`. -/
def dictGetD (k : PyStr) (d : List (PyStr × PyStr)) (dflt : PyStr) : PyStr :=
  (dictGet k d).getD dflt

/-! ## A small backtracking regex engine

Only the pattern features used by `rule_based_parser.py` are embedded:
literals, character classes, sequencing, ordered alternation, greedy `?`,
greedy `*`/`+`/`{m,n}` over one-character classes, one level of capture
groups, lookahead `(?=...)`, and the word boundary `\b`.  `reMatch` returns
the list of all ways a pattern can match at the current position, in
backtracking priority order (first = what Python's engine commits to). -/

/-- Regex abstract syntax (transcribed per pattern below). -/
inductive RE where
  | eps
  | chr (c : Char)
  /-- case-insensitive literal, for the `re.IGNORECASE` patterns -/
  | chrCI (c : Char)
  | cls (p : Char → Bool)
  | seq (a b : RE)
  | alt (a b : RE)
  /-- greedy `?` -/
  | opt (r : RE)
  /-- greedy `*` over a one-character class -/
  | starCls (p : Char → Bool)
  /-- greedy `{lo,hi}` (`hi = none` for unbounded, so `+` is `{1,}`) over a
  one-character class -/
  | repCls (p : Char → Bool) (lo : Nat) (hi : Option Nat)
  | grp (n : Nat) (r : RE)
  /-- lookahead `(?=r)` -/
  | look (r : RE)
  /-- word boundary `\b` -/
  | wordB

/-- `\w` (ASCII). -/
def isWordChar (c : Char) : Bool := c.isAlphanum || c = '_'

/-- `\d`. -/
def isDigitChar (c : Char) : Bool := c.isDigit

/-- Word-char test on the optional character adjacent to a position
(text boundary counts as non-word), for `\b`. -/
def isWordOpt : Option Char → Bool
  | some c => isWordChar c
  | none => false

/-- Character just before the current position after consuming `consumed`. -/
def newPrev (prev : Option Char) (consumed : PyStr) : Option Char :=
  match consumed.getLast? with
  | some c => some c
  | none => prev

/-- Match states: (char before position, remaining input, captures). -/
abbrev MState := Option Char × PyStr × List (Nat × PyStr)

/-- Greedy backtracking states for `p*` / `p{lo,hi}`: consume a maximal run
of `p`-characters and offer fallback positions, longest first. -/
def repStates (p : Char → Bool) (lo : Nat) (hi : Option Nat)
    (prev : Option Char) (s : PyStr) (caps : List (Nat × PyStr)) : List MState :=
  let maxRun := (s.takeWhile p).length
  let hi' := match hi with
    | some h => min h maxRun
    | none => maxRun
  if hi' < lo then []
  else (List.range (hi' - lo + 1)).map (fun i =>
    let k := hi' - i
    (newPrev prev (s.take k), s.drop k, caps))

/-- Structural-depth bound for `reMatch`'s recursion (each recursive call
descends into a strict subterm, so the size of the regex suffices). -/
def reSize : RE → Nat
  | .eps | .chr _ | .chrCI _ | .cls _ | .starCls _ | .repCls _ _ _ | .wordB => 1
  | .seq a b | .alt a b => reSize a + reSize b + 1
  | .opt r | .grp _ r | .look r => reSize r + 1

/-- All ways `r` matches a prefix of `s`, in backtracking priority order.
`fuel` only bounds the structural recursion; `reSize r` is always enough. -/
def reMatchF : Nat → RE → Option Char → PyStr → List (Nat × PyStr) → List MState
  | 0, _, _, _, _ => []
  | _ + 1, .eps, prev, s, caps => [(prev, s, caps)]
  | _ + 1, .chr c, _, s, caps =>
    match s with
    | [] => []
    | a :: rest => if a = c then [(some a, rest, caps)] else []
  | _ + 1, .chrCI c, _, s, caps =>
    match s with
    | [] => []
    | a :: rest => if a.toLower = c.toLower then [(some a, rest, caps)] else []
  | _ + 1, .cls p, _, s, caps =>
    match s with
    | [] => []
    | a :: rest => if p a then [(some a, rest, caps)] else []
  | fuel + 1, .seq r1 r2, prev, s, caps =>
    (reMatchF fuel r1 prev s caps).flatMap
      (fun st => reMatchF fuel r2 st.1 st.2.1 st.2.2)
  | fuel + 1, .alt r1 r2, prev, s, caps =>
    reMatchF fuel r1 prev s caps ++ reMatchF fuel r2 prev s caps
  | fuel + 1, .opt r, prev, s, caps =>
    reMatchF fuel r prev s caps ++ [(prev, s, caps)]
  | _ + 1, .starCls p, prev, s, caps => repStates p 0 none prev s caps
  | _ + 1, .repCls p lo hi, prev, s, caps => repStates p lo hi prev s caps
  | fuel + 1, .grp n r, prev, s, caps =>
    (reMatchF fuel r prev s caps).map
      (fun st => (st.1, st.2.1, (n, s.take (s.length - st.2.1.length)) :: st.2.2))
  | fuel + 1, .look r, prev, s, caps =>
    if (reMatchF fuel r prev s caps).isEmpty then [] else [(prev, s, caps)]
  | _ + 1, .wordB, prev, s, caps =>
    if isWordOpt prev ≠ isWordOpt s.head? then [(prev, s, caps)] else []

/-- All ways `r` matches a prefix of `s` (priority order). -/
def reMatch (r : RE) (prev : Option Char) (s : PyStr)
    (caps : List (Nat × PyStr)) : List MState :=
  reMatchF (reSize r) r prev s caps

/-- Latest capture of group `n` (`''` when the group did not participate,
matching `re.findall`'s treatment of unmatched groups). -/
def capGet (n : Nat) (caps : List (Nat × PyStr)) : PyStr :=
  match caps.find? (fun kv => kv.1 = n) with
  | some kv => kv.2
  | none => []

/-- The match Python's engine commits to at exactly this position:
(matched text, captures). -/
def matchHere (r : RE) (prev : Option Char) (s : PyStr) :
    Option (PyStr × List (Nat × PyStr)) :=
  match reMatch r prev s [] with
  | [] => none
  | st :: _ => some (s.take (s.length - st.2.1.length), st.2.2)

/-- One step of a left-to-right scan: `re` scans non-overlapping matches,
advancing at least one character past an empty match. -/
def scanStep (r : RE) (prev : Option Char) (s : PyStr) :
    Option (PyStr × List (Nat × PyStr)) × Option Char × PyStr :=
  match matchHere r prev s with
  | some (m, caps) =>
    if m.isEmpty then
      match s with
      | [] => (some (m, caps), prev, [])
      | c :: rest => (some (m, caps), some c, rest)
    else (some (m, caps), newPrev prev m, s.drop m.length)
  | none =>
    match s with
    | [] => (none, prev, [])
    | c :: rest => (none, some c, rest)

/-- `re.findall`: all non-overlapping matches left to right.  When the
pattern has exactly one capture group Python returns the group-1 captures
(`grpOne = true`), otherwise the full match texts. -/
def reFindallGo : Nat → RE → Bool → Option Char → PyStr → List PyStr
  | 0, _, _, _, _ => []
  | fuel + 1, r, grpOne, prev, s =>
    match scanStep r prev s with
    | (some (m, caps), prev', s') =>
      (if grpOne then capGet 1 caps else m) ::
        (if s.isEmpty then [] else reFindallGo fuel r grpOne prev' s')
    | (none, prev', s') =>
      if s.isEmpty then [] else reFindallGo fuel r grpOne prev' s'

/-- `pattern.findall(s)`. -/
def reFindall (r : RE) (grpOne : Bool) (s : PyStr) : List PyStr :=
  reFindallGo (s.length + 1) r grpOne none s

/-- `pattern.search(s)`: leftmost match, or `none`. -/
def reSearchGo : Nat → RE → Option Char → PyStr → Option (PyStr × List (Nat × PyStr))
  | 0, _, _, _ => none
  | fuel + 1, r, prev, s =>
    match matchHere r prev s with
    | some mc => some mc
    | none =>
      match s with
      | [] => none
      | c :: rest => reSearchGo fuel r (some c) rest

/-- `pattern.search(s)`. -/
def reSearch (r : RE) (s : PyStr) : Option (PyStr × List (Nat × PyStr)) :=
  reSearchGo (s.length + 1) r none s

/-- `re.split(pattern, s)` (our split patterns never match empty text;
an empty match is skipped defensively, advancing one character). -/
def reSplitGo : Nat → RE → Option Char → PyStr → PyStr → List PyStr
  | 0, _, _, acc, s => [acc.reverse ++ s]
  | fuel + 1, r, prev, acc, s =>
    match matchHere r prev s with
    | some (m, _) =>
      if m.isEmpty then
        match s with
        | [] => [acc.reverse]
        | c :: rest => reSplitGo fuel r (some c) (c :: acc) rest
      else acc.reverse :: reSplitGo fuel r (newPrev prev m) [] (s.drop m.length)
    | none =>
      match s with
      | [] => [acc.reverse]
      | c :: rest => reSplitGo fuel r (some c) (c :: acc) rest

/-- `re.split(pattern, s)`. -/
def reSplit (r : RE) (s : PyStr) : List PyStr :=
  reSplitGo (s.length + 1) r none [] s

/-- `re.sub(pattern, '', s)`: delete all non-overlapping matches. -/
def reSubGo : Nat → RE → Option Char → PyStr → PyStr
  | 0, _, _, s => s
  | fuel + 1, r, prev, s =>
    match matchHere r prev s with
    | some (m, _) =>
      if m.isEmpty then
        match s with
        | [] => []
        | c :: rest => c :: reSubGo fuel r (some c) rest
      else reSubGo fuel r (newPrev prev m) (s.drop m.length)
    | none =>
      match s with
      | [] => []
      | c :: rest => c :: reSubGo fuel r (some c) rest

/-- `re.sub(pattern, '', s)`. -/
def reSub (r : RE) (s : PyStr) : PyStr :=
  reSubGo (s.length + 1) r none s

/-- Right-nested sequence of regexes. -/
def reSeqL (l : List RE) : RE := l.foldr RE.seq RE.eps

/-- Literal string regex. -/
def reStr (s : String) : RE := reSeqL (s.data.map RE.chr)

/-- Case-insensitive literal string regex. -/
def reStrCI (s : String) : RE := reSeqL (s.data.map RE.chrCI)

/-- `p+`. -/
def rePlus (p : Char → Bool) : RE := .repCls p 1 none

/-! ## Data model (`app/models/resume_models.py`)

Pydantic models become structures.  `Optional[str]` fields become
`Option PyStr`; list fields default to `[]`.  `confidence_score` is declared
`float = 0.0` in the source but the generative path assigns it the `None`
produced by `_calculate_llm_confidence` (pydantic does not re-validate on
assignment), so it is embedded as `Option ℚ`.  `processing_time`
(wall-clock) is not embedded. -/

structure PersonalInfo where
  full_name : Option PyStr := none
  email : Option PyStr := none
  phone : Option PyStr := none
  address : Option PyStr := none
  linkedin : Option PyStr := none
  github : Option PyStr := none
  portfolio : Option PyStr := none
deriving DecidableEq, Repr

structure Experience where
  company : Option PyStr := none
  position : Option PyStr := none
  start_date : Option PyStr := none
  end_date : Option PyStr := none
  is_current : Bool := false
  description : Option PyStr := none
  achievements : List PyStr := []
deriving DecidableEq, Repr

structure Education where
  institution : Option PyStr := none
  degree : Option PyStr := none
  field_of_study : Option PyStr := none
  graduation_date : Option PyStr := none
  gpa : Option PyStr := none
deriving DecidableEq, Repr

structure Skill where
  category : Option PyStr := none
  skills : List PyStr := []
deriving DecidableEq, Repr

structure Certification where
  name : Option PyStr := none
  issuer : Option PyStr := none
  date : Option PyStr := none
  credential_id : Option PyStr := none
deriving DecidableEq, Repr

structure Project where
  name : Option PyStr := none
  description : Option PyStr := none
  technologies : List PyStr := []
  url : Option PyStr := none
  start_date : Option PyStr := none
  end_date : Option PyStr := none
deriving DecidableEq, Repr

structure Language where
  language : Option PyStr := none
  proficiency : Option PyStr := none
deriving DecidableEq, Repr

structure ParsedResume where
  personal_info : PersonalInfo := {}
  summary : Option PyStr := none
  experience : List Experience := []
  education : List Education := []
  skills : List Skill := []
  certifications : List Certification := []
  projects : List Project := []
  languages : List Language := []
  confidence_score : Option ℚ := some 0
  parsing_method : PyStr := pys "unknown"
deriving DecidableEq, Repr

/-- `ParsedResume()`: the all-defaults record, as produced by
`_convert_to_pydantic`'s fallback branch. -/
def emptyParsedResume : ParsedResume := {}

/-! ## Compiled patterns of `RuleBasedParser.__init__` -/

/-- `[A-Za-z0-9._%+-]`. -/
def emailLocalP (c : Char) : Bool :=
  c.isAlpha || c.isDigit || c = '.' || c = '_' || c = '%' || c = '+' || c = '-'

/-- `[A-Za-z0-9.-]`. -/
def emailDomP (c : Char) : Bool := c.isAlpha || c.isDigit || c = '.' || c = '-'

/-- `[A-Z|a-z]` (the class contains a literal `|`, transcribed as written). -/
def emailTldP (c : Char) : Bool := c.isAlpha || c = '|'

/-- `self.email_pattern`:
`\b[A-Za-z0-9._%+-]+@[A-Za-z0-9.-]+\.[A-Z|a-z]{2,}\b`. -/
def emailRE : RE := reSeqL
  [.wordB, rePlus emailLocalP, .chr '@', rePlus emailDomP, .chr '.',
   .repCls emailTldP 2 none, .wordB]

/-- `[-.\s]`. -/
def dashDotSpaceP (c : Char) : Bool := c = '-' || c = '.' || pyIsSpace c

/-- `self.phone_pattern`:
`(\+\d{1,3}[-.\s]?)?\(?\d{3}\)?[-.\s]?\d{3}[-.\s]?\d{4}`
(one capture group: the optional country code). -/
def phoneRE : RE := reSeqL
  [.opt (.grp 1 (reSeqL
      [.chr '+', .repCls isDigitChar 1 (some 3), .opt (.cls dashDotSpaceP)])),
   .opt (.chr '('), .repCls isDigitChar 3 (some 3), .opt (.chr ')'),
   .opt (.cls dashDotSpaceP), .repCls isDigitChar 3 (some 3),
   .opt (.cls dashDotSpaceP), .repCls isDigitChar 4 (some 4)]

/-- `[\w-]`. -/
def wordDashP (c : Char) : Bool := isWordChar c || c = '-'

/-- `self.linkedin_pattern`: `linkedin\.com/in/[\w-]+`, `re.IGNORECASE`. -/
def linkedinRE : RE := reSeqL
  [reStrCI "linkedin", .chr '.', reStrCI "com", .chr '/', reStrCI "in",
   .chr '/', rePlus wordDashP]

/-- `self.github_pattern`: `github\.com/[\w-]+`, `re.IGNORECASE`. -/
def githubRE : RE := reSeqL
  [reStrCI "github", .chr '.', reStrCI "com", .chr '/', rePlus wordDashP]

/-- `[^a-z\n]`. -/
def notLowerNotNLP (c : Char) : Bool := !c.isLower && c ≠ '\n'

/-- The `_extract_experience` entry splitter:
`\n(?=[A-Z][^a-z\n]*[A-Z])`. -/
def expSplitRE : RE :=
  .seq (.chr '\n')
    (.look (reSeqL [.cls Char.isUpper, .starCls notLowerNotNLP, .cls Char.isUpper]))

/-- The `_extract_experience` date pattern:
`(\d{4}|\d{1,2}/\d{4}|\w+\s+\d{4})` (one group wrapping the alternation). -/
def expDateRE : RE := .grp 1
  (.alt (.repCls isDigitChar 4 (some 4))
    (.alt (reSeqL [.repCls isDigitChar 1 (some 2), .chr '/',
                   .repCls isDigitChar 4 (some 4)])
      (reSeqL [rePlus isWordChar, rePlus pyIsSpace,
               .repCls isDigitChar 4 (some 4)])))

/-- The `_extract_education` date pattern: `(\d{4})`. -/
def eduDateRE : RE := .grp 1 (.repCls isDigitChar 4 (some 4))

/-- The `_extract_certifications` date pattern: `(\d{4}|\d{1,2}/\d{4})`. -/
def certDateRE : RE := .grp 1
  (.alt (.repCls isDigitChar 4 (some 4))
    (reSeqL [.repCls isDigitChar 1 (some 2), .chr '/',
             .repCls isDigitChar 4 (some 4)]))

/-- The `_extract_certifications` deletion pattern:
`\d{4}|\d{1,2}/\d{4}` (no group). -/
def certSubRE : RE :=
  .alt (.repCls isDigitChar 4 (some 4))
    (reSeqL [.repCls isDigitChar 1 (some 2), .chr '/',
             .repCls isDigitChar 4 (some 4)])

/-- The `_extract_projects` technology pattern:
`Technologies?:?\s*([^\n]+)`, `re.IGNORECASE`. -/
def techRE : RE := reSeqL
  [reStrCI "Technologie", .opt (.chrCI 's'), .opt (.chr ':'),
   .starCls pyIsSpace, .grp 1 (rePlus (fun c => c ≠ '\n'))]

/-! ## Section segmenter (`RuleBasedParser._split_into_sections`) -/

/-- `self.section_keywords`, in the source's (insertion) order. -/
def sectionKeywords : List (PyStr × List PyStr) :=
  [(pys "experience",
     [pys "experience", pys "work experience", pys "employment",
      pys "work history", pys "professional experience"]),
   (pys "education",
     [pys "education", pys "academic background", pys "qualifications",
      pys "degrees"]),
   (pys "skills",
     [pys "skills", pys "technical skills", pys "competencies",
      pys "expertise", pys "technologies"]),
   (pys "certifications",
     [pys "certifications", pys "certificates", pys "licenses",
      pys "credentials"]),
   (pys "projects",
     [pys "projects", pys "personal projects", pys "portfolio",
      pys "work samples"]),
   (pys "summary",
     [pys "summary", pys "objective", pys "profile", pys "about me",
      pys "overview"]),
   (pys "languages",
     [pys "languages", pys "language skills", pys "linguistic skills"])]

/-- The header test applied to a stripped line: the first dictionary entry
(in order) one of whose keywords occurs case-insensitively in the line,
provided the line is under 50 characters. -/
def findSection (line : PyStr) : Option PyStr :=
  (sectionKeywords.find? (fun sk =>
    sk.2.any (fun kw =>
      pyIn (pyLower kw) (pyLower line) && decide (line.length < 50)))).map
    Prod.fst

/-- Segmenter state: the result dict, the current section label and the
lines accumulated for it. -/
structure SegState where
  sections : List (PyStr × PyStr)
  currentSection : PyStr
  currentContent : List PyStr
deriving DecidableEq, Repr

/-- One loop iteration of `_split_into_sections`. -/
def segStep (st : SegState) (rawLine : PyStr) : SegState :=
  let line := pyStrip rawLine
  if line = [] then st
  else
    match findSection line with
    | some sec =>
      let sections :=
        if st.currentContent ≠ [] then
          dictSet st.currentSection (pyJoin ['\n'] st.currentContent)
            st.sections
        else st.sections
      ⟨sections, sec, []⟩
    | none => ⟨st.sections, st.currentSection, st.currentContent ++ [line]⟩

/-- `_split_into_sections`. -/
def splitIntoSections (text : PyStr) : List (PyStr × PyStr) :=
  let st := (pySplit1 '\n' text).foldl segStep ⟨[], pys "header", []⟩
  if st.currentContent ≠ [] then
    dictSet st.currentSection (pyJoin ['\n'] st.currentContent)
      st.sections
  else st.sections

/-! ## Field extractors (`rule_based_parser.py`) -/

/-- The name loop of `_extract_personal_info`: the first stripped line that
is non-empty, matches none of the four contact patterns, is under 100
characters and does not start with "resume"/"cv"/"curriculum" (a line that
fails only the inner test is skipped, not taken — the loop `break`s only
after assigning). -/
def findName (full_text : PyStr) : Option PyStr :=
  ((pySplit1 '\n' full_text).map pyStrip).find? (fun line =>
    !line.isEmpty &&
    !(reSearch emailRE line).isSome && !(reSearch phoneRE line).isSome &&
    !(reSearch linkedinRE line).isSome && !(reSearch githubRE line).isSome &&
    decide (line.length < 100) &&
    !startsWithAny (pyLower line) [pys "resume", pys "cv", pys "curriculum"])

/-- `_extract_personal_info`.  `email_pattern`, `linkedin_pattern` and
`github_pattern` have no capture group, so `findall` yields full matches;
`phone_pattern` has exactly one group (the optional country code), so
`findall` yields the group-1 captures — the `isinstance(phone, tuple)`
branch of the source is dead for a one-group pattern. -/
def extractPersonalInfo (text : PyStr) (sections : List (PyStr × PyStr)) :
    PersonalInfo :=
  let header_text := dictGetD (pys "header") sections []
  let full_text := header_text ++ '\n' :: text.take 500
  let email := (reFindall emailRE false full_text).head?
  let phone := (reFindall phoneRE true full_text).head?
  let linkedin := ((reFindall linkedinRE false full_text).head?).map
    (fun m => pys "https://" ++ m)
  let github := ((reFindall githubRE false full_text).head?).map
    (fun m => pys "https://" ++ m)
  { full_name := findName full_text
    email := email
    phone := phone
    address := none
    linkedin := linkedin
    github := github
    portfolio := none }

/-- `_extract_summary`. -/
def extractSummary (sections : List (PyStr × PyStr)) : Option PyStr :=
  let summary_text := dictGetD (pys "summary") sections []
  if !summary_text.isEmpty then some (pyStrip summary_text) else none

/-- `_extract_experience`. -/
def extractExperience (sections : List (PyStr × PyStr)) : List Experience :=
  let experience_text := dictGetD (pys "experience") sections []
  if experience_text.isEmpty then []
  else
    let entries := reSplit expSplitRE experience_text
    entries.filterMap (fun entry =>
      if pyStrip entry = [] then none
      else
        let lines := ((pySplit1 '\n' entry).map pyStrip).filter (!·.isEmpty)
        if lines.length < 2 then none
        else
          let first_line := lines.headD []
          let dates := reFindall expDateRE true entry
          let start_date := dates.head?
          let end_date := (dates.drop 1).head?
          let is_current :=
            pyIn (pys "present") (pyLower entry) ||
            pyIn (pys "current") (pyLower entry)
          let cp : Option PyStr × Option PyStr :=
            if pyIn (pys "|") first_line then
              let parts := pySplit1 '|' first_line
              (some (pyStrip (parts.headD [])),
               some (pyStrip ((parts.drop 1).headD [])))
            else if pyIn (pys ",") first_line then
              let parts := pySplit1 ',' first_line
              (some (pyStrip ((parts.drop 1).headD [])),
               some (pyStrip (parts.headD [])))
            else (none, some first_line)
          let description := pyJoin ['\n'] (lines.drop 1)
          some { company := cp.1
                 position := cp.2
                 start_date := start_date
                 end_date := end_date
                 is_current := is_current
                 description := some description
                 achievements := [] })

/-- One entry of `_extract_education`.  The institution/degree loop keeps
the last matching line; a degree line containing `"in"` is split on every
occurrence of `"in"` in its lowercased text, the part before the first
becoming the degree and the part after it the field of study. -/
def eduFromEntry (entry : PyStr) : Education :=
  let lines := ((pySplit1 '\n' entry).map pyStrip).filter (!·.isEmpty)
  let dates := reFindall eduDateRE true entry
  let graduation_date := dates.getLast?
  let idf : Option PyStr × Option PyStr × Option PyStr :=
    lines.foldl (fun acc line =>
      if [pys "university", pys "college", pys "institute", pys "school"].any
          (fun kw => pyIn kw (pyLower line)) then
        (some line, acc.2.1, acc.2.2)
      else if [pys "bachelor", pys "master", pys "phd", pys "degree", pys "bs",
               pys "ms", pys "ba", pys "ma"].any
          (fun kw => pyIn kw (pyLower line)) then
        if pyIn (pys "in") (pyLower line) then
          let parts := pySplit2 'i' 'n' (pyLower line)
          (acc.1, some (pyStrip (parts.headD [])),
           ((parts.drop 1).head?).map pyStrip)
        else (acc.1, some line, acc.2.2)
      else acc) (none, none, none)
  { institution := idf.1
    degree := idf.2.1
    field_of_study := idf.2.2
    graduation_date := graduation_date
    gpa := none }

/-- `_extract_education`. -/
def extractEducation (sections : List (PyStr × PyStr)) : List Education :=
  let education_text := dictGetD (pys "education") sections []
  if education_text.isEmpty then []
  else
    (pySplit2 '\n' '\n' education_text).filterMap (fun entry =>
      if pyStrip entry = [] then none else some (eduFromEntry entry))

/-- `_extract_skills`: split on `[,;•\n]`, strip, drop empties, one fixed
category. -/
def extractSkills (sections : List (PyStr × PyStr)) : List Skill :=
  let skills_text := dictGetD (pys "skills") sections []
  if skills_text.isEmpty then []
  else
    let skills_raw :=
      splitOnPred (fun c => c = ',' || c = ';' || c = '•' || c = '\n') skills_text
    let skills_cleaned := (skills_raw.map pyStrip).filter (!·.isEmpty)
    [{ category := some (pys "Technical Skills"), skills := skills_cleaned }]

/-- `_extract_certifications`. -/
def extractCertifications (sections : List (PyStr × PyStr)) :
    List Certification :=
  let cert_text := dictGetD (pys "certifications") sections []
  if cert_text.isEmpty then []
  else
    let lines := ((pySplit1 '\n' cert_text).map pyStrip).filter (!·.isEmpty)
    lines.map (fun line =>
      let dates := reFindall certDateRE true line
      let date := dates.head?
      let name := pyStrip (reSub certSubRE line)
      { name := some name, issuer := none, date := date, credential_id := none })

/-- `_extract_projects`.  Technologies: the group-1 text of the
`Technologies:` pattern comma-split and stripped (no empty filter, unlike
skills). -/
def extractProjects (sections : List (PyStr × PyStr)) : List Project :=
  let projects_text := dictGetD (pys "projects") sections []
  if projects_text.isEmpty then []
  else
    (pySplit2 '\n' '\n' projects_text).filterMap (fun entry =>
      if pyStrip entry = [] then none
      else
        let lines := ((pySplit1 '\n' entry).map pyStrip).filter (!·.isEmpty)
        let name := lines.head?
        let description :=
          if lines.length > 1 then pyJoin ['\n'] (lines.drop 1) else []
        let technologies :=
          match reSearch techRE description with
          | some mc => ((pySplit1 ',' (capGet 1 mc.2)).map pyStrip)
          | none => []
        some { name := name
               description := some description
               technologies := technologies
               url := none
               start_date := none
               end_date := none })

/-- `_extract_languages`. -/
def extractLanguages (sections : List (PyStr × PyStr)) : List Language :=
  let lang_text := dictGetD (pys "languages") sections []
  if lang_text.isEmpty then []
  else
    let lines := ((pySplit1 '\n' lang_text).map pyStrip).filter (!·.isEmpty)
    lines.map (fun line =>
      if pyIn (pys ":") line || pyIn (pys "(") line then
        if pyIn (pys ":") line then
          let parts := pySplit1 ':' line
          { language := some (pyStrip (parts.headD []))
            proficiency := ((parts.drop 1).head?).map pyStrip }
        else
          let parts := splitOnPred (fun c => c = '(' || c = ')') line
          { language := some (pyStrip (parts.headD []))
            proficiency := ((parts.drop 1).head?).map pyStrip }
      else { language := some line, proficiency := none })

/-! ## Confidence scorers -/

/-- `RuleBasedParser._calculate_confidence`: weighted presence over 100
points, divided by `max_score = 100` and clamped above by `1.0`
(truthiness: `None` and `""`/`[]` count as absent). -/
def calculateConfidence (r : ParsedResume) : ℚ :=
  let score : ℚ :=
    (if pyTruthy r.personal_info.full_name then 15 else 0) +
    (if pyTruthy r.personal_info.email then 15 else 0) +
    (if pyTruthy r.personal_info.phone then 10 else 0) +
    (if !r.experience.isEmpty then 20 else 0) +
    (if !r.education.isEmpty then 15 else 0) +
    (if !r.skills.isEmpty then 15 else 0) +
    (if pyTruthy r.summary then 5 else 0) +
    (if !r.certifications.isEmpty then 2.5 else 0) +
    (if !r.projects.isEmpty then 2.5 else 0)
  min (score / 100) 1

/-- The local `score` accumulated by the body of
`LLMParser._calculate_llm_confidence` (its weight table). -/
def llmConfidenceScore (r : ParsedResume) : ℚ :=
  (if pyTruthy r.personal_info.full_name then 0.2 else 0) +
  (if pyTruthy r.personal_info.email then 0.15 else 0) +
  (if pyTruthy r.personal_info.phone then 0.1 else 0) +
  (if !r.experience.isEmpty then 0.25 else 0) +
  (if !r.education.isEmpty then 0.15 else 0) +
  (if !r.skills.isEmpty then 0.1 else 0) +
  (if pyTruthy r.summary then 0.05 else 0)

/-- `LLMParser._calculate_llm_confidence`: the body accumulates
`llmConfidenceScore` into the local `score` but ends without any `return`
statement, so the Python function returns `None` for every input record. -/
def llmCalculateConfidence (r : ParsedResume) : Option ℚ :=
  let _score := llmConfidenceScore r
  none

/-- The tail of the generative success path (`llm_parser.py` lines 54–58 and
86–89): score the converted record and store the result on it, returning
both. -/
def llmFinalize (r : ParsedResume) : ParsedResume × Option ℚ :=
  let confidence := llmCalculateConfidence r
  ({ r with confidence_score := confidence }, confidence)

/-- `RuleBasedParser.parse`. -/
def ruleParse (text : PyStr) : ParsedResume × ℚ :=
  let sections := splitIntoSections text
  let parsed_resume : ParsedResume :=
    { personal_info := extractPersonalInfo text sections
      summary := extractSummary sections
      experience := extractExperience sections
      education := extractEducation sections
      skills := extractSkills sections
      certifications := extractCertifications sections
      projects := extractProjects sections
      languages := extractLanguages sections
      confidence_score := some 0
      parsing_method := pys "rule_based" }
  let confidence := calculateConfidence parsed_resume
  ({ parsed_resume with confidence_score := some confidence }, confidence)

/-! ## Escalation controller (`routes.py`, `parse_resume_sync`) -/

/-- `Settings.RULE_CONFIDENCE_THRESHOLD` (`config.py`). -/
def RULE_CONFIDENCE_THRESHOLD : ℚ := 0.85

/-- The escalation guard of line 231:
`confidence < settings.RULE_CONFIDENCE_THRESHOLD and use_llm_fallback`. -/
def escalates (confidence : ℚ) (use_llm_fallback : Bool) : Bool :=
  decide (confidence < RULE_CONFIDENCE_THRESHOLD) && use_llm_fallback

/-- Python's `>` between an `Optional[float]` and a `float`: comparing
`None` with a float raises `TypeError`. -/
def pyGtOptFloat : Option ℚ → ℚ → Except String Bool
  | none, _ => .error "TypeError: not supported between NoneType and float"
  | some a, b => .ok (decide (a > b))

/-- The body of the `try` at lines 232–237: the generative call either
raises (network/provider/JSON failure — the `.error` case of `llmResult`)
or returns `(llm_resume, llm_confidence)`; then
`if llm_confidence > confidence: parsed_resume = llm_resume`.  Any
exception — including the `TypeError` from comparing a `None` confidence —
is caught by the `except`, which keeps the rule-based record. -/
def mergeStep (ruleRec : ParsedResume) (confidence : ℚ)
    (llmResult : Except String (ParsedResume × Option ℚ)) : ParsedResume :=
  match llmResult with
  | .error _ => ruleRec
  | .ok (llm_resume, llm_confidence) =>
    match pyGtOptFloat llm_confidence confidence with
    | .error _ => ruleRec
    | .ok b => if b then llm_resume else ruleRec

/-- The text-processing core of `parse_resume_sync` (after file validation
and text extraction): refuse blank text with the 400 error, otherwise parse
rule-based and conditionally escalate and merge.  `llmResult` stands for
the outcome the generative adapter would produce if invoked. -/
def parseCore (text : PyStr) (use_llm_fallback : Bool)
    (llmResult : Except String (ParsedResume × Option ℚ)) :
    Except String ParsedResume :=
  if (pyStrip text).isEmpty then
    .error "No text could be extracted from file"
  else
    let rp := ruleParse text
    let parsed_resume :=
      if escalates rp.2 use_llm_fallback then mergeStep rp.1 rp.2 llmResult
      else rp.1
    .ok parsed_resume

/-! ## Weight tables as data (for the numerical claim) -/

/-- The rule-based weight table, in the order the points are added in
`_calculate_confidence` (name, email, phone, experience, education, skills,
summary, certifications, projects), over `max_score = 100`. -/
def ruleWeights : List ℚ := [15, 15, 10, 20, 15, 15, 5, 2.5, 2.5]

/-- `max_score` of `_calculate_confidence`. -/
def ruleMaxScore : ℚ := 100

/-- The generative-path weight table, in the order the weights are added in
`_calculate_llm_confidence` (name, email, phone, experience, education,
skills, summary). -/
def llmWeights : List ℚ := [0.2, 0.15, 0.1, 0.25, 0.15, 0.1, 0.05]

/-! ## Predicates and concrete inputs used by the theorems -/

/-- `s` contains two consecutive newline characters (a blank line inside a
newline-join). -/
def hasDoubleNL : PyStr → Bool
  | a :: b :: rest => (a = '\n' && b = '\n') || hasDoubleNL (b :: rest)
  | _ => false

/-- A non-blank stripped line: non-empty, equal to the `strip` of some raw
line, and newline-free. -/
def StrippedLine (l : PyStr) : Prop :=
  l ≠ [] ∧ (∃ raw, l = pyStrip raw) ∧ '\n' ∉ l

/-- A segmenter output value in the form the segmenter produces it: a
newline-join of one or more non-blank stripped lines. -/
def SegValueGood (v : PyStr) : Prop :=
  ∃ parts : List PyStr, parts ≠ [] ∧ (∀ p ∈ parts, StrippedLine p) ∧
    v = pyJoin ['\n'] parts

/-- A line the segmenter treats as content: non-blank after stripping and
not a section header. -/
def ContentLine (l : PyStr) : Prop :=
  pyStrip l ≠ [] ∧ findSection (pyStrip l) = none

instance (l : PyStr) : Decidable (ContentLine l) :=
  inferInstanceAs (Decidable (pyStrip l ≠ [] ∧ findSection (pyStrip l) = none))

/-- Invariant carried through the segmenter loop: every value already
flushed is a good join, and every accumulated line is a non-blank stripped
newline-free line. -/
def SegInv (st : SegState) : Prop :=
  (∀ k v, dictGet k st.sections = some v → SegValueGood v) ∧
  (∀ l ∈ st.currentContent, StrippedLine l)

/-- The Scenario A input of the spec. -/
def scenarioAText : PyStr :=
  pys "John Smith\njohn@x.com\n555-123-4567\n\nEXPERIENCE\nSenior Dev | Acme Corp\n2019 - Present\nBuilt things."

/-- A generative record distinct from the empty record (merge-law witness
input). -/
def llmRecW : ParsedResume := { summary := some (pys "better") }

/-- A record with every scored field populated (exercises the full weight
tables). -/
def fullResume : ParsedResume :=
  { personal_info :=
      { full_name := some (pys "A"), email := some (pys "a@b.co")
        phone := some (pys "5551234567") }
    summary := some (pys "s")
    experience := [{}]
    education := [{}]
    skills := [{}]
    certifications := [{}]
    projects := [{}] }

/-! ## Supporting lemmas -/

theorem splitOnPred_ne_nil (p : Char → Bool) (s : PyStr) : splitOnPred p s ≠ [] := by
  cases s with
  | nil => simp [splitOnPred]
  | cons c rest =>
    simp only [splitOnPred]
    split
    · simp
    · split <;> simp

theorem mem_splitOnPred_not (p : Char → Bool) :
    ∀ s piece, piece ∈ splitOnPred p s → ∀ x ∈ piece, p x = false := by
  intro s
  induction s with
  | nil =>
    intro piece hp x hx
    simp only [splitOnPred, List.mem_singleton] at hp
    subst hp
    simp at hx
  | cons c rest ih =>
    intro piece hp x hx
    simp only [splitOnPred] at hp
    by_cases hc : p c = true
    · rw [if_pos hc] at hp
      rcases List.mem_cons.mp hp with h | h
      · subst h; simp at hx
      · exact ih piece h x hx
    · rw [if_neg hc] at hp
      rcases hsp : splitOnPred p rest with _ | ⟨hd, tl⟩
      · exact absurd hsp (splitOnPred_ne_nil p rest)
      · rw [hsp] at hp
        rcases List.mem_cons.mp hp with h | h
        · subst h
          rcases List.mem_cons.mp hx with h' | h'
          · subst h'; exact Bool.eq_false_iff.mpr hc
          · exact ih hd (hsp ▸ List.mem_cons_self hd tl) x h'
        · exact ih piece (hsp ▸ List.mem_cons_of_mem _ h) x hx

theorem pySplit1_not_mem (c : Char) (s : PyStr) :
    ∀ piece ∈ pySplit1 c s, c ∉ piece := by
  intro piece hp hmem
  have := mem_splitOnPred_not (· = c) s piece hp c hmem
  simp at this

theorem strip_nil_all_space (s : PyStr) (h : pyStrip s = []) :
    ∀ c ∈ s, pyIsSpace c := by
  unfold pyStrip at h
  have h1 := List.reverse_eq_nil_iff.mp h
  have h2 := List.dropWhile_eq_nil_iff.mp h1
  have h3 : ∀ c ∈ s.dropWhile pyIsSpace, pyIsSpace c := by
    intro c hc
    exact h2 c (List.mem_reverse.mpr hc)
  intro c hc
  rw [← List.takeWhile_append_dropWhile pyIsSpace s] at hc
  rcases List.mem_append.mp hc with h' | h'
  · exact List.mem_takeWhile_imp h'
  · exact h3 c h'

theorem exists_nonspace_of_strip_ne_nil (raw : PyStr) (h : pyStrip raw ≠ []) :
    ∃ c ∈ pyStrip raw, ¬ pyIsSpace c := by
  unfold pyStrip at h ⊢
  rcases hd : (raw.dropWhile pyIsSpace).reverse.dropWhile pyIsSpace with _ | ⟨a, t⟩
  · rw [hd] at h; simp at h
  · have ha : ¬ pyIsSpace a := by
      have := List.head?_dropWhile_not pyIsSpace (raw.dropWhile pyIsSpace).reverse
      rw [hd] at this
      simpa using this
    refine ⟨a, ?_, ha⟩
    simp

theorem mem_strip_of_mem (s : PyStr) : ∀ c ∈ pyStrip s, c ∈ s := by
  intro c hc
  unfold pyStrip at hc
  have h1 := List.mem_reverse.mp hc
  have h2 := (List.dropWhile_sublist (l := (s.dropWhile pyIsSpace).reverse)
    (p := pyIsSpace)).mem h1
  have h3 := List.mem_reverse.mp h2
  exact (List.dropWhile_sublist (l := s) (p := pyIsSpace)).mem h3

theorem mem_pyJoin_of_mem {sep : PyStr} :
    ∀ {parts : List PyStr} {p : PyStr} {c : Char},
      p ∈ parts → c ∈ p → c ∈ pyJoin sep parts := by
  intro parts
  induction parts with
  | nil => intro p c hp; simp at hp
  | cons q ps ih =>
    intro p c hp hc
    cases ps with
    | nil =>
      simp only [List.mem_singleton] at hp
      subst hp
      exact hc
    | cons q1 ps' =>
      show c ∈ q ++ sep ++ pyJoin sep (q1 :: ps')
      rcases List.mem_cons.mp hp with h | h
      · subst h
        exact List.mem_append.mpr (.inl (List.mem_append.mpr (.inl hc)))
      · exact List.mem_append.mpr (.inr (ih h hc))

theorem pyJoin_ne_nil {sep : PyStr} {parts : List PyStr} (hne : parts ≠ [])
    (hh : ∀ p ∈ parts, p ≠ []) : pyJoin sep parts ≠ [] := by
  cases parts with
  | nil => exact absurd rfl hne
  | cons p ps =>
    cases ps with
    | nil => exact hh p (List.mem_singleton.mpr rfl)
    | cons q ps' =>
      show p ++ sep ++ pyJoin sep (q :: ps') ≠ []
      have := hh p (List.mem_cons_self p _)
      simp [this]

theorem pyJoin_head? {sep : PyStr} {p : PyStr} {ps : List PyStr} (hp : p ≠ []) :
    (pyJoin sep (p :: ps)).head? = p.head? := by
  cases ps with
  | nil => rfl
  | cons q ps' =>
    show (p ++ sep ++ pyJoin sep (q :: ps')).head? = p.head?
    cases p with
    | nil => exact absurd rfl hp
    | cons c t => simp

theorem hasDoubleNL_cons_false {a : Char} {rest : PyStr}
    (h : hasDoubleNL (a :: rest) = false) : hasDoubleNL rest = false := by
  cases rest with
  | nil => rfl
  | cons b r =>
    unfold hasDoubleNL at h
    exact (Bool.or_eq_false_iff.mp h).2

theorem hasDoubleNL_append {p q : PyStr} (h : '\n' ∉ p) :
    hasDoubleNL (p ++ q) = hasDoubleNL q := by
  induction p with
  | nil => rfl
  | cons c p' ih =>
    have hc : c ≠ '\n' := fun he => h (he ▸ List.mem_cons_self c p')
    have h' : '\n' ∉ p' := fun hm => h (List.mem_cons_of_mem _ hm)
    cases hpq : p' ++ q with
    | nil =>
      obtain ⟨hp', hq⟩ := List.append_eq_nil.mp hpq
      subst hp'
      subst hq
      rfl
    | cons d r =>
      show hasDoubleNL (c :: (p' ++ q)) = hasDoubleNL q
      rw [hpq]
      simp only [hasDoubleNL]
      have hcd : decide (c = '\n') = false := by simpa using hc
      rw [hcd, Bool.false_and, Bool.false_or, ← hpq, ih h']

theorem hasDoubleNL_nl_cons {x : PyStr}
    (hx : ∀ d, x.head? = some d → d ≠ '\n') :
    hasDoubleNL ('\n' :: x) = hasDoubleNL x := by
  cases x with
  | nil => rfl
  | cons d r =>
    have hd : d ≠ '\n' := hx d rfl
    simp only [hasDoubleNL]
    have : decide (d = '\n') = false := by simpa using hd
    rw [this, Bool.and_false, Bool.false_or]

theorem hasDoubleNL_join {parts : List PyStr}
    (h : ∀ p ∈ parts, p ≠ [] ∧ '\n' ∉ p) :
    hasDoubleNL (pyJoin ['\n'] parts) = false := by
  induction parts with
  | nil => rfl
  | cons p ps ih =>
    have hp := h p (List.mem_cons_self p ps)
    cases ps with
    | nil =>
      show hasDoubleNL p = false
      have := hasDoubleNL_append (q := []) hp.2
      simpa using this
    | cons p1 ps' =>
      have hrest : ∀ q ∈ p1 :: ps', q ≠ [] ∧ '\n' ∉ q :=
        fun q hq => h q (List.mem_cons_of_mem _ hq)
      have hp1 := hrest p1 (List.mem_cons_self p1 ps')
      show hasDoubleNL (p ++ ['\n'] ++ pyJoin ['\n'] (p1 :: ps')) = false
      rw [List.append_assoc]
      rw [hasDoubleNL_append hp.2]
      show hasDoubleNL ('\n' :: pyJoin ['\n'] (p1 :: ps')) = false
      rw [hasDoubleNL_nl_cons ?hd]
      case hd =>
        intro d hdd hde
        rw [pyJoin_head? hp1.1] at hdd
        subst hde
        exact hp1.2 (List.mem_of_mem_head? hdd)
      exact ih hrest

theorem pySplit2_eq_single {s : PyStr} (h : hasDoubleNL s = false) :
    pySplit2 '\n' '\n' s = [s] := by
  induction s with
  | nil => rfl
  | cons a t ih =>
    cases t with
    | nil => rfl
    | cons b rest =>
      have hcond : ¬ (a = '\n' ∧ b = '\n') := by
        rintro ⟨h1, h2⟩
        subst h1
        subst h2
        simp [hasDoubleNL] at h
      have ht : hasDoubleNL (b :: rest) = false := hasDoubleNL_cons_false h
      simp only [pySplit2, if_neg hcond]
      rw [ih ht]

theorem dictGet_dictSet (k k' v : PyStr) (d : List (PyStr × PyStr)) :
    dictGet k (dictSet k' v d) = if k' = k then some v else dictGet k d := by
  induction d with
  | nil => simp [dictSet, dictGet]
  | cons kv rest ih =>
    obtain ⟨k0, v0⟩ := kv
    simp only [dictSet, dictGet]
    by_cases h1 : k0 = k'
    · rw [if_pos h1]
      subst h1
      simp only [dictGet]
      by_cases h2 : k0 = k
      · rw [if_pos h2, if_pos h2]
      · rw [if_neg h2, if_neg h2, if_neg h2]
    · rw [if_neg h1]
      simp only [dictGet]
      by_cases h2 : k0 = k
      · rw [if_pos h2]
        have h3 : ¬ k' = k := fun he => h1 (h2.trans he.symm)
        rw [if_neg h3, if_pos h2]
      · rw [if_neg h2, ih, if_neg h2]

theorem isEmpty_false_of_ne {v : PyStr} (h : v ≠ []) : v.isEmpty = false := by
  cases v with
  | nil => exact absurd rfl h
  | cons c t => rfl

theorem segStep_inv {st : SegState} {rawLine : PyStr} (hst : SegInv st)
    (hnl : '\n' ∉ rawLine) : SegInv (segStep st rawLine) := by
  simp only [segStep]
  by_cases hb : pyStrip rawLine = []
  · rw [if_pos hb]
    exact hst
  · rw [if_neg hb]
    cases hfs : findSection (pyStrip rawLine) with
    | some sec =>
      constructor
      · intro k v hget
        simp only at hget
        by_cases hcc : st.currentContent = []
        · rw [if_neg (fun h => h hcc)] at hget
          exact hst.1 k v hget
        · rw [if_pos hcc] at hget
          rw [dictGet_dictSet] at hget
          by_cases hk : st.currentSection = k
          · rw [if_pos hk] at hget
            refine ⟨st.currentContent, hcc, hst.2, ?_⟩
            exact (Option.some.injEq _ _ ▸ hget).symm
          · rw [if_neg hk] at hget
            exact hst.1 k v hget
      · intro l hl
        simp at hl
    | none =>
      constructor
      · exact hst.1
      · intro l hl
        rcases List.mem_append.mp hl with h | h
        · exact hst.2 l h
        · simp only [List.mem_singleton] at h
          subst h
          exact ⟨hb, ⟨rawLine, rfl⟩,
            fun hm => hnl (mem_strip_of_mem rawLine '\n' hm)⟩

theorem foldl_segStep_inv :
    ∀ (lines : List PyStr) (st : SegState), SegInv st →
      (∀ l ∈ lines, '\n' ∉ l) → SegInv (lines.foldl segStep st) := by
  intro lines
  induction lines with
  | nil =>
    intro st h _
    exact h
  | cons l ls ih =>
    intro st h hnl
    simp only [List.foldl_cons]
    exact ih _ (segStep_inv h (hnl l (List.mem_cons_self l ls)))
      (fun x hx => hnl x (List.mem_cons_of_mem _ hx))

theorem splitIntoSections_good (text : PyStr) :
    ∀ k v, dictGet k (splitIntoSections text) = some v → SegValueGood v := by
  intro k v hget
  have hinv : SegInv ((pySplit1 '\n' text).foldl segStep ⟨[], pys "header", []⟩) := by
    apply foldl_segStep_inv
    · constructor
      · intro k' v' h'
        simp [dictGet] at h'
      · intro l hl
        simp at hl
    · intro l hl hm
      exact pySplit1_not_mem '\n' text l hl hm
  simp only [splitIntoSections] at hget
  by_cases hcc : ((pySplit1 '\n' text).foldl segStep
      ⟨[], pys "header", []⟩).currentContent = []
  · rw [if_neg (fun h => h hcc)] at hget
    exact hinv.1 k v hget
  · rw [if_pos hcc] at hget
    rw [dictGet_dictSet] at hget
    by_cases hk : ((pySplit1 '\n' text).foldl segStep
        ⟨[], pys "header", []⟩).currentSection = k
    · rw [if_pos hk] at hget
      refine ⟨_, hcc, hinv.2, ?_⟩
      exact (Option.some.injEq _ _ ▸ hget).symm
    · rw [if_neg hk] at hget
      exact hinv.1 k v hget

theorem segValue_ne_nil {v : PyStr} (hv : SegValueGood v) : v ≠ [] := by
  obtain ⟨parts, hne, hgood, rfl⟩ := hv
  exact pyJoin_ne_nil hne (fun p hp => (hgood p hp).1)

theorem segValue_strip_ne_nil {v : PyStr} (hv : SegValueGood v) :
    pyStrip v ≠ [] := by
  obtain ⟨parts, hne, hgood, rfl⟩ := hv
  cases parts with
  | nil => exact absurd rfl hne
  | cons p0 ps =>
    have hp0 := hgood p0 (List.mem_cons_self p0 ps)
    obtain ⟨raw, hraw⟩ := hp0.2.1
    obtain ⟨c, hc, hcs⟩ := exists_nonspace_of_strip_ne_nil raw (hraw ▸ hp0.1)
    have hcp0 : c ∈ p0 := hraw ▸ hc
    have hcj : c ∈ pyJoin ['\n'] (p0 :: ps) :=
      mem_pyJoin_of_mem (List.mem_cons_self p0 ps) hcp0
    intro hnil
    exact hcs (strip_nil_all_space _ hnil c hcj)

theorem segValue_split2 {v : PyStr} (hv : SegValueGood v) :
    pySplit2 '\n' '\n' v = [v] := by
  apply pySplit2_eq_single
  obtain ⟨parts, hne, hgood, rfl⟩ := hv
  exact hasDoubleNL_join (fun p hp => ⟨(hgood p hp).1, (hgood p hp).2.2⟩)

theorem extractEducation_len {sections : List (PyStr × PyStr)} {v : PyStr}
    (hget : dictGet (pys "education") sections = some v) (hv : SegValueGood v) :
    (extractEducation sections).length = 1 := by
  simp only [extractEducation, dictGetD, hget, Option.getD_some]
  rw [isEmpty_false_of_ne (segValue_ne_nil hv)]
  simp only [Bool.false_eq_true, if_false]
  rw [segValue_split2 hv]
  simp [List.filterMap_cons, segValue_strip_ne_nil hv]

theorem extractProjects_len {sections : List (PyStr × PyStr)} {v : PyStr}
    (hget : dictGet (pys "projects") sections = some v) (hv : SegValueGood v) :
    (extractProjects sections).length = 1 := by
  simp only [extractProjects, dictGetD, hget, Option.getD_some]
  rw [isEmpty_false_of_ne (segValue_ne_nil hv)]
  simp only [Bool.false_eq_true, if_false]
  rw [segValue_split2 hv]
  simp [List.filterMap_cons, segValue_strip_ne_nil hv]

theorem foldl_segStep_content :
    ∀ (ls : List PyStr) (st : SegState), (∀ l ∈ ls, ContentLine l) →
      ls.foldl segStep st =
        ⟨st.sections, st.currentSection, st.currentContent ++ ls.map pyStrip⟩ := by
  intro ls
  induction ls with
  | nil =>
    intro st _
    simp
  | cons l ls' ih =>
    intro st h
    have hl := h l (List.mem_cons_self l ls')
    have hstep : segStep st l =
        ⟨st.sections, st.currentSection, st.currentContent ++ [pyStrip l]⟩ := by
      simp only [segStep]
      rw [if_neg hl.1, hl.2]
    simp only [List.foldl_cons]
    rw [hstep, ih _ (fun x hx => h x (List.mem_cons_of_mem _ hx))]
    simp

theorem ite_w_nonneg (c : Prop) [Decidable c] (x : ℚ) (hx : 0 ≤ x) :
    0 ≤ if c then x else 0 := by
  split
  · exact hx
  · exact le_refl 0

theorem calculateConfidence_nonneg (r : ParsedResume) :
    0 ≤ calculateConfidence r := by
  simp only [calculateConfidence]
  apply le_min
  · apply div_nonneg _ (by norm_num)
    repeat' apply add_nonneg
    all_goals exact ite_w_nonneg _ _ (by norm_num)
  · norm_num

theorem calculateConfidence_le_one (r : ParsedResume) :
    calculateConfidence r ≤ 1 := by
  simp only [calculateConfidence]
  exact min_le_right _ _

theorem findSection_nil : findSection ([] : PyStr) = none := by decide

theorem dup_header_general (text h k : PyStr) (a b : List PyStr)
    (hsplit : pySplit1 '\n' text = h :: (a ++ h :: b))
    (hh : findSection (pyStrip h) = some k)
    (ha : ∀ l ∈ a, ContentLine l) (hb : ∀ l ∈ b, ContentLine l)
    (hane : a ≠ []) (hbne : b ≠ []) :
    dictGet k (splitIntoSections text) = some (pyJoin ['\n'] (b.map pyStrip)) := by
  have hhs : pyStrip h ≠ [] := by
    intro hnil
    rw [hnil, findSection_nil] at hh
    cases hh
  have hstep1 : segStep ⟨[], pys "header", []⟩ h = ⟨[], k, []⟩ := by
    simp only [segStep]
    rw [if_neg hhs, hh]
    simp
  have hfold_a : a.foldl segStep ⟨[], k, []⟩ = ⟨[], k, a.map pyStrip⟩ := by
    rw [foldl_segStep_content a _ ha]
    simp
  have hmne : a.map pyStrip ≠ [] := by
    cases a with
    | nil => exact absurd rfl hane
    | cons x xs => simp
  have hstep2 : segStep ⟨[], k, a.map pyStrip⟩ h =
      ⟨[(k, pyJoin ['\n'] (a.map pyStrip))], k, []⟩ := by
    simp only [segStep]
    rw [if_neg hhs, hh]
    simp only [if_pos hmne]
    simp [dictSet]
  have hfold_b :
      b.foldl segStep ⟨[(k, pyJoin ['\n'] (a.map pyStrip))], k, []⟩ =
        ⟨[(k, pyJoin ['\n'] (a.map pyStrip))], k, b.map pyStrip⟩ := by
    rw [foldl_segStep_content b _ hb]
    simp
  have hbm : b.map pyStrip ≠ [] := by
    cases b with
    | nil => exact absurd rfl hbne
    | cons x xs => simp
  simp only [splitIntoSections, hsplit]
  rw [List.foldl_cons, hstep1, List.foldl_append, hfold_a, List.foldl_cons,
    hstep2, hfold_b]
  rw [if_pos hbm]
  rw [dictGet_dictSet, if_pos rfl]

/-! ## Claim theorems -/

/-- C1: merge law — after escalation, when the generative call succeeds
with a (float) confidence `c`, the final record is the generative record
iff `c` is strictly greater than the rule-based confidence; otherwise,
ties included, the rule-based record is kept. -/
theorem claim1_merge_law (ruleRec llm_resume : ParsedResume)
    (confidence c : ℚ) (hne : llm_resume ≠ ruleRec) :
    (mergeStep ruleRec confidence (.ok (llm_resume, some c)) = llm_resume ↔
      c > confidence) ∧
    (c ≤ confidence →
      mergeStep ruleRec confidence (.ok (llm_resume, some c)) = ruleRec) := by
  constructor
  · by_cases hgt : c > confidence <;>
      simp [mergeStep, pyGtOptFloat, hgt, Ne.symm hne]
  · intro hle
    simp [mergeStep, pyGtOptFloat, not_lt.mpr hle]

/-- C1 witness: with distinct records and confidences 1 vs 0 the merge law
instantiates concretely. -/
theorem claim1_merge_law_witness :
    (mergeStep emptyParsedResume 0 (.ok (llmRecW, some 1)) = llmRecW ↔
      (1 : ℚ) > 0) ∧
    ((1 : ℚ) ≤ 0 →
      mergeStep emptyParsedResume 0 (.ok (llmRecW, some 1)) =
        emptyParsedResume) :=
  claim1_merge_law emptyParsedResume llmRecW 0 1 (by decide)

/-- C2: escalation boundary — the generative path is taken iff the
rule-based confidence is strictly below `0.85` and the caller enabled
fallback; at exactly `0.85` (or above) escalation never happens for any
fallback flag, while `0.849` with fallback escalates. -/
theorem claim2_escalation_boundary (confidence : ℚ) (fb : Bool) :
    (escalates confidence fb = true ↔ confidence < 0.85 ∧ fb = true) ∧
    escalates 0.85 fb = false ∧ escalates 0.849 true = true := by
  refine ⟨?_, ?_, ?_⟩
  · simp [escalates, RULE_CONFIDENCE_THRESHOLD]
  · simp [escalates, RULE_CONFIDENCE_THRESHOLD]
  · norm_num [escalates, RULE_CONFIDENCE_THRESHOLD]

/-- C3: the rule-based parse's returned confidence always lies in `[0,1]`,
but the generative confidence computation does not return a float at all —
`_calculate_llm_confidence` falls off its end and returns `None` for every
record (the missing-`return` code bug; the function is annotated
`-> float`). -/
theorem claim3_confidence_range :
    (∀ r : ParsedResume, llmCalculateConfidence r = none) ∧
    (∀ text : PyStr, 0 ≤ (ruleParse text).2 ∧ (ruleParse text).2 ≤ 1) :=
  ⟨fun _ => rfl,
   fun _ => ⟨calculateConfidence_nonneg _, calculateConfidence_le_one _⟩⟩

/-- C4 counterexample: on the Scenario A input the claim as stated is
false — the extracted phone is the empty string (the `findall` of the
one-group phone pattern returns the optional country-code group, which did
not participate), and the `"A | B"` heuristic assigns company = "Senior
Dev", position = "Acme Corp", the reverse of the claim. -/
theorem claim4_scenario_a_counterexample :
    ¬ ((ruleParse scenarioAText).1.personal_info.full_name =
         some (pys "John Smith") ∧
       (ruleParse scenarioAText).1.personal_info.email =
         some (pys "john@x.com") ∧
       pyTruthy (ruleParse scenarioAText).1.personal_info.phone = true ∧
       (ruleParse scenarioAText).1.experience.length = 1 ∧
       (ruleParse scenarioAText).1.experience.map Experience.position =
         [some (pys "Senior Dev")] ∧
       (ruleParse scenarioAText).1.experience.map Experience.company =
         [some (pys "Acme Corp")] ∧
       (ruleParse scenarioAText).1.experience.map Experience.is_current =
         [true]) := by
  set_option maxRecDepth 1000000 in decide

/-- C4 amended: on the Scenario A input the rule-based parser returns
full_name "John Smith", email "john@x.com", phone present but EMPTY
(`phone = some ""`, which is falsy), and exactly one experience entry with
company = "Senior Dev", position = "Acme Corp" (per the `"A | B"` →
company=A, position=B heuristic) and `is_current = true`. -/
theorem claim4_scenario_a_amended :
    (ruleParse scenarioAText).1.personal_info.full_name =
      some (pys "John Smith") ∧
    (ruleParse scenarioAText).1.personal_info.email =
      some (pys "john@x.com") ∧
    (ruleParse scenarioAText).1.personal_info.phone = some (pys "") ∧
    (ruleParse scenarioAText).1.experience.length = 1 ∧
    (ruleParse scenarioAText).1.experience.map Experience.company =
      [some (pys "Senior Dev")] ∧
    (ruleParse scenarioAText).1.experience.map Experience.position =
      [some (pys "Acme Corp")] ∧
    (ruleParse scenarioAText).1.experience.map Experience.is_current =
      [true] := by
  set_option maxRecDepth 1000000 in decide

/-- C5 counterexample: the generative-path weight table sums to exactly 1,
refuting the claim that it does not sum to 1.0. -/
theorem claim5_llm_weights_counterexample : llmWeights.sum = 1 := by
  norm_num [llmWeights]

/-- C5 amended: both weight tables sum to exactly 1.0 — the generative
table (.20+.15+.10+.25+.15+.10+.05) no less than the rule-based one
(15+15+10+20+15+15+5+2.5+2.5 points over a max score of 100); a fully
populated record accordingly accumulates exactly the table sum on the
generative scorer and confidence 1 on the rule-based scorer. -/
theorem claim5_weight_tables :
    llmWeights.sum = 1 ∧ ruleWeights.sum = ruleMaxScore ∧
    ruleWeights.sum / ruleMaxScore = 1 ∧
    llmConfidenceScore fullResume = llmWeights.sum ∧
    calculateConfidence fullResume = 1 := by
  have hname : pyTruthy fullResume.personal_info.full_name = true := by decide
  have hemail : pyTruthy fullResume.personal_info.email = true := by decide
  have hphone : pyTruthy fullResume.personal_info.phone = true := by decide
  have hexp : fullResume.experience.isEmpty = false := by decide
  have hedu : fullResume.education.isEmpty = false := by decide
  have hsk : fullResume.skills.isEmpty = false := by decide
  have hsum : pyTruthy fullResume.summary = true := by decide
  have hcert : fullResume.certifications.isEmpty = false := by decide
  have hproj : fullResume.projects.isEmpty = false := by decide
  refine ⟨by norm_num [llmWeights], by norm_num [ruleWeights, ruleMaxScore],
    by norm_num [ruleWeights, ruleMaxScore], ?_, ?_⟩
  · simp only [llmConfidenceScore, hname, hemail, hphone, hexp, hedu, hsk,
      hsum, Bool.not_false, if_true]
    norm_num [llmWeights]
  · simp only [calculateConfidence, hname, hemail, hphone, hexp, hedu, hsk,
      hsum, hcert, hproj, Bool.not_false, if_true]
    norm_num

/-- C6 counterexample: with two "Skills" headers and content only between
them, the segmenter retains the first occurrence's content (an empty
accumulation is never flushed), so the output does not hold only what
follows the second occurrence. -/
theorem claim6_duplicate_header_counterexample :
    dictGet (pys "skills")
      (splitIntoSections (pys "Skills\nPython\nSkills")) =
    some (pys "Python") := by
  decide

/-- C6 amended: when the same header line occurs twice and non-blank,
non-header content follows both occurrences, the segmenter's output for
that section key is exactly the (stripped, newline-joined) content after
the second occurrence — the first occurrence's content is overwritten, not
appended to.  (If nothing follows the second occurrence, the first
content is retained instead.) -/
theorem claim6_duplicate_header_overwrites (text h k : PyStr)
    (a b : List PyStr)
    (hsplit : pySplit1 '\n' text = h :: (a ++ h :: b))
    (hh : findSection (pyStrip h) = some k)
    (ha : ∀ l ∈ a, ContentLine l) (hb : ∀ l ∈ b, ContentLine l)
    (hane : a ≠ []) (hbne : b ≠ []) :
    dictGet k (splitIntoSections text) =
      some (pyJoin ['\n'] (b.map pyStrip)) :=
  dup_header_general text h k a b hsplit hh ha hb hane hbne

/-- C6 witness: "Skills\nA\nSkills\nB" maps "skills" to "B". -/
theorem claim6_duplicate_header_witness :
    dictGet (pys "skills")
      (splitIntoSections (pys "Skills\nA\nSkills\nB")) =
    some (pyJoin ['\n'] ([pys "B"].map pyStrip)) :=
  claim6_duplicate_header_overwrites (pys "Skills\nA\nSkills\nB")
    (pys "Skills") (pys "skills") [pys "A"] [pys "B"]
    (by decide) (by decide) (by decide) (by decide) (by decide) (by decide)

/-- C7: on empty or whitespace-only extracted text the pipeline returns
the hard 400 "no text" error and never a structured record — extraction is
not run. -/
theorem claim7_empty_text_refusal (text : PyStr) (fb : Bool)
    (llm : Except String (ParsedResume × Option ℚ))
    (h : pyStrip text = []) :
    parseCore text fb llm = .error "No text could be extracted from file" := by
  simp [parseCore, h]

/-- C7 witness: whitespace-only text is refused. -/
theorem claim7_empty_text_refusal_witness :
    parseCore (pys " \t ") true (.error "ignored") =
      .error "No text could be extracted from file" :=
  claim7_empty_text_refusal (pys " \t ") true (.error "ignored") (by decide)

/-- C8: any failure of the generative call is caught by the controller's
`except` and the parse is not aborted — the rule-based record is returned
to the caller. -/
theorem claim8_generative_failure_contained (text : PyStr) (fb : Bool)
    (e : String) (h : pyStrip text ≠ []) :
    parseCore text fb (.error e) = .ok (ruleParse text).1 := by
  simp only [parseCore, isEmpty_false_of_ne h, Bool.false_eq_true, if_false]
  split
  · rfl
  · rfl

/-- C8 witness: a timeout on a concrete input yields the rule-based
record. -/
theorem claim8_generative_failure_witness :
    parseCore (pys "John") true (.error "timeout") =
      .ok (ruleParse (pys "John")).1 :=
  claim8_generative_failure_contained (pys "John") true "timeout" (by decide)

/-- C9: `_calculate_llm_confidence` returns `None` for every record, so
every successful generative parse carries `confidence_score = None`, the
merge comparison `llm_confidence > confidence` raises a `TypeError` for
every rule-based confidence, and the controller's handler therefore keeps
the rule-based record. -/
theorem claim9_llm_confidence_none (r ruleRec : ParsedResume)
    (confidence : ℚ) :
    (llmFinalize r).2 = none ∧
    (llmFinalize r).1.confidence_score = none ∧
    pyGtOptFloat (llmFinalize r).2 confidence =
      .error "TypeError: not supported between NoneType and float" ∧
    mergeStep ruleRec confidence (.ok (llmFinalize r)) = ruleRec := by
  refine ⟨rfl, rfl, rfl, ?_⟩
  rfl

/-- C10: every segmenter output value is a newline-join of non-blank
stripped lines (hence contains no blank line), so the education and
projects extractors — which split their section on a double newline —
produce exactly one entry whenever their section is present. -/
theorem claim10_single_entries (text : PyStr) :
    (∀ k v, dictGet k (splitIntoSections text) = some v → SegValueGood v) ∧
    (∀ v, dictGet (pys "education") (splitIntoSections text) = some v →
      (extractEducation (splitIntoSections text)).length = 1) ∧
    (∀ v, dictGet (pys "projects") (splitIntoSections text) = some v →
      (extractProjects (splitIntoSections text)).length = 1) := by
  refine ⟨splitIntoSections_good text, ?_, ?_⟩
  · intro v hget
    exact extractEducation_len hget (splitIntoSections_good text _ _ hget)
  · intro v hget
    exact extractProjects_len hget (splitIntoSections_good text _ _ hget)

/-- C10 witness: a document with one education line and one projects line
yields exactly one education entry and one project entry. -/
theorem claim10_single_entries_witness :
    (extractEducation
        (splitIntoSections (pys "Education\nBS\nProjects\nP"))).length = 1 ∧
    (extractProjects
        (splitIntoSections (pys "Education\nBS\nProjects\nP"))).length = 1 :=
  ⟨(claim10_single_entries (pys "Education\nBS\nProjects\nP")).2.1
      (pys "BS") (by decide),
   (claim10_single_entries (pys "Education\nBS\nProjects\nP")).2.2
      (pys "P") (by decide)⟩

end ResumeParser
